import Mathlib

/-!
Verification of the audiorw audio stream I/O layer.

This file gives a shallow embedding of the stream-abstraction and
transcoding engine of the audiorw repository: the format catalog and
hint derivation, the format prober, the chunked read/write pipelines
with cooperative cancellation, the atomic file writer, and the
memory-backed byte input stream.  Pure functions of the source become
Lean functions; stateful loops become recursive functions producing an
event trace together with a tri-state outcome (a thrown C++ exception
is modelled as the `outcome.error` result); the file system is an
explicit record of the destination file and its `.tmp` sibling.
-/

namespace audiorw

/-- Container formats supported by the library (`enum class format`). -/
inductive format
  | flac
  | mp3
  | wav
  | wavpack
deriving DecidableEq, Repr

/-- Caller-supplied probing preference (`enum class format_hint`). -/
inductive format_hint
  | try_flac_first
  | try_mp3_first
  | try_wav_first
  | try_wavpack_first
  | try_flac_only
  | try_mp3_only
  | try_wav_only
  | try_wavpack_only
deriving DecidableEq, Repr

/-- `detail::get_formats_to_try`: the ordered probe sequence of a hint
(4 candidates for a `*_first` hint, 1 for a `*_only` hint). -/
def get_formats_to_try : format_hint → List format
  | format_hint.try_flac_first    => [format.flac, format.wav, format.mp3, format.wavpack]
  | format_hint.try_mp3_first     => [format.mp3, format.wav, format.flac, format.wavpack]
  | format_hint.try_wav_first     => [format.wav, format.mp3, format.flac, format.wavpack]
  | format_hint.try_wavpack_first => [format.wavpack, format.wav, format.mp3, format.flac]
  | format_hint.try_flac_only     => [format.flac]
  | format_hint.try_mp3_only      => [format.mp3]
  | format_hint.try_wav_only      => [format.wav]
  | format_hint.try_wavpack_only  => [format.wavpack]

/-- One row of the static format catalog (`detail::format_info`). -/
structure format_info where
  fmt : format
  ext : String
  hint_only : format_hint
  hint_all : format_hint
deriving DecidableEq, Repr

/-- The static catalog `detail::FORMAT_INFO` built by `make_format_info_table`,
in table order `flac, mp3, wav, wavpack`. -/
def FORMAT_INFO : List format_info :=
  [ ⟨format.flac,    ".FLAC", format_hint.try_flac_only,    format_hint.try_flac_first⟩,
    ⟨format.mp3,     ".MP3",  format_hint.try_mp3_only,     format_hint.try_mp3_first⟩,
    ⟨format.wav,     ".WAV",  format_hint.try_wav_only,     format_hint.try_wav_first⟩,
    ⟨format.wavpack, ".WV",   format_hint.try_wavpack_only, format_hint.try_wavpack_first⟩ ]

/-- `detail::find_format_info`: linear search of the catalog for an exact
(case-sensitive) extension match. -/
def find_format_info (extension : String) : Option format_info :=
  FORMAT_INFO.find? (fun info => info.ext == extension)

/-- `audiorw::make_format_hint(file_path, try_all)`: looks the extension of
the path up in the catalog exactly as the source does (the argument here is
`file_path.extension().string()`; no case normalisation is performed by the
source), falling back to `format_hint::try_wav_only`. -/
def make_format_hint (extension : String) (try_all : Bool) : format_hint :=
  match find_format_info extension with
  | some info => if try_all then info.hint_all else info.hint_only
  | none => format_hint.try_wav_only

/-! ## Format probing

Each probe attempt is abstracted by two oracles: `succ f p` says whether
opening a decoder for format `f` with the byte stream at position `p`
succeeds, and `cons f p` says how many bytes a failed attempt consumes.
Each loop returns the list of attempts it made, as pairs
`(format, stream position at the start of the attempt)`, together with
the accepted format, if any. -/

/-- `make_decoder(in, hint)` loop body (over an explicit candidate list):
on failure the stream is rewound with `in->seek(0, std::ios::beg)` before
the next candidate is tried. -/
def make_decoder_go (succ : format → Nat → Bool) (cons : format → Nat → Nat) :
    List format → Nat → List (format × Nat) × Option format
  | [], _ => ([], none)
  | f :: rest, pos =>
    if succ f pos then ([(f, pos)], some f)
    else
      let step := make_decoder_go succ cons rest 0
      ((f, pos) :: step.1, step.2)

/-- `detail::read(in, out, hint, should_abort)` loop body: on a non-success
result the input stream is rewound with `in->seek(0, std::ios::beg)` (and
the output rewound with `out->seek({0})`) before the next candidate. -/
def detail_read_go (succ : format → Nat → Bool) (cons : format → Nat → Nat) :
    List format → Nat → List (format × Nat) × Option format
  | [], _ => ([], none)
  | f :: rest, pos =>
    if succ f pos then ([(f, pos)], some f)
    else
      let step := detail_read_go succ cons rest 0
      ((f, pos) :: step.1, step.2)

/-- `detail::read_header(in, hint)` loop body: on failure the next candidate
is tried directly, with no rewind of the stream, so the next attempt starts
wherever the failed parse left the position. -/
def read_header_go (succ : format → Nat → Bool) (cons : format → Nat → Nat) :
    List format → Nat → List (format × Nat) × Option format
  | [], _ => ([], none)
  | f :: rest, pos =>
    if succ f pos then ([(f, pos)], some f)
    else
      let step := read_header_go succ cons rest (pos + cons f pos)
      ((f, pos) :: step.1, step.2)

/-- `detail::read(in, out, hint, should_abort)`: probes the candidates of
`get_formats_to_try hint` starting at stream position 0. -/
def detail_read (succ : format → Nat → Bool) (cons : format → Nat → Nat)
    (hint : format_hint) : List (format × Nat) × Option format :=
  detail_read_go succ cons (get_formats_to_try hint) 0

/-- The path-based entry point
`read(const std::filesystem::path&, format_hint, should_abort)`: as written
in the source it calls `audiorw::read(&in, &out, format_hint::try_wav_only,
should_abort)`, passing the literal `try_wav_only` and never using its
`hint` parameter. -/
def path_read (succ : format → Nat → Bool) (cons : format → Nat → Nat)
    (hint : format_hint) : List (format × Nat) × Option format :=
  detail_read succ cons format_hint.try_wav_only

/-! ## WavPack integer sample scaling -/

/-- Decode divisor in `wavpack_read_int_chunks`:
`(1 << (header.bit_depth - 1)) - 1`. -/
def wavpack_read_int_chunks_divisor (bit_depth : Nat) : Int :=
  2 ^ (bit_depth - 1) - 1

/-- Decode divisor in `stream_read_int_frames`:
`(1 < (header.bit_depth - 1)) - 1`, a C `<` comparison (yielding the int
0 or 1) rather than the `<<` shift. -/
def stream_read_int_frames_divisor (bit_depth : Int) : Int :=
  (if 1 < bit_depth - 1 then 1 else 0) - 1

/-- Encode-side scale factor in `wavpack_write_int_chunks`:
`(1 << (header.bit_depth - 1)) - 1`. -/
def wavpack_int_scale (bit_depth : Nat) : Int :=
  2 ^ (bit_depth - 1) - 1

/-! ## The memory-backed byte input stream -/

/-- `audiorw::byte_input_stream`: a read-only span of bytes plus a cursor.
Bytes are abstracted as natural numbers. -/
structure byte_input_stream where
  bytes : List Nat
  pos : Nat
deriving DecidableEq, Repr

/-- `byte_input_stream::read_bytes(buffer)`: computes
`n = min(buffer.size(), bytes_.size() - pos_)`, copies
`[bytes_.data(), bytes_.data() + n)` — the first `n` bytes of the span,
not the `n` bytes at `pos_` — into the buffer, advances `pos_` by `n` and
returns `n`.  The returned list is the data placed in the buffer. -/
def byte_input_stream.read_bytes (s : byte_input_stream) (buffer_size : Nat) :
    List Nat × byte_input_stream :=
  let remaining_bytes := s.bytes.length - s.pos
  let n := min buffer_size remaining_bytes
  (s.bytes.take n, { s with pos := s.pos + n })

/-- `byte_input_stream::push_back_byte(v)`: decrements `pos_` and returns
true; the supplied byte `v` is never stored and the span is never
modified. -/
def byte_input_stream.push_back_byte (s : byte_input_stream) (v : Nat) :
    Bool × byte_input_stream :=
  (true, { s with pos := s.pos - 1 })

/-! ## The chunked transcoding pipelines

The loops below are instrumented: each returns the list of observable
events it performs — one cancellation `check` per iteration, a `read`
and a `write` per chunk, and `commit` where the source calls the output
sink's `commit()` — together with the outcome.  A C++ exception thrown
out of a loop is the `outcome.error` result.  Frame sources and sinks
are abstracted by count oracles (position or iteration index and the
requested frame count map to the count actually produced or consumed);
the sample data itself carries no information the claims are about, so
buffers are elided.  The cancellation predicate is abstracted as a
function of the number of times it has been called so far. -/

/-- `detail::CHUNK_SIZE = 1 << 14`. -/
def CHUNK_SIZE : Nat := 2 ^ 14

/-- Observable events of a chunked transfer. -/
inductive ev
  | check (i : Nat) (b : Bool)
  | read (p : Nat) (req : Nat) (got : Nat)
  | write (p : Nat) (req : Nat) (got : Nat)
  | commit
deriving DecidableEq, Repr

/-- Tri-state outcome of a pipeline body; `error` models a thrown
exception (the hard-failure path). -/
inductive outcome
  | success
  | abort
  | error
deriving DecidableEq, Repr

/-- `audiorw::operation_result`. -/
inductive operation_result
  | abort
  | fail
  | success
deriving DecidableEq, Repr

/-- A `catch (...) { return operation_result::fail; }` wrapper: a thrown
exception becomes `fail`. -/
def to_operation_result : outcome → operation_result
  | outcome.success => operation_result.success
  | outcome.abort => operation_result.abort
  | outcome.error => operation_result.fail

theorem chunk_size_pos : 0 < CHUNK_SIZE := by decide

theorem chunk_pos (r : Nat) : 0 < min (r + 1) CHUNK_SIZE :=
  lt_min (Nat.succ_pos r) chunk_size_pos

theorem chunk_le (r : Nat) : min (r + 1) CHUNK_SIZE ≤ r + 1 :=
  Nat.min_le_left _ _

theorem chunk_lt (r : Nat) : r + 1 - min (r + 1) CHUNK_SIZE < r + 1 := by
  have h1 := chunk_pos r
  have h2 := chunk_le r
  omega

/-- The generic `detail::ma_write(header, in, out, type, should_abort)` loop
(lines 1379-1406): per iteration it checks the cancellation predicate,
computes `frames_to_process = min(frames_remaining, CHUNK_SIZE)`, pulls that
many frames from the frame input stream (throwing on a short read), pushes
them to the encoder (throwing on a short write), and on loop exit calls
`out->commit()` and returns success.  `src pos n` / `sink pos n` are the
frame counts returned by `in->read_frames` / `encoder.write_pcm_frames`
when `n` frames are requested with `pos` frames already transferred. -/
def ma_write_go (src sink : Nat → Nat → Nat) (ab : Nat → Bool) :
    Nat → Nat → Nat → List ev × outcome
  | 0, _, _ => ([ev.commit], outcome.success)
  | r + 1, pos, i =>
    if ab i then ([ev.check i true], outcome.abort)
    else
      let ftp := min (r + 1) CHUNK_SIZE
      let got := src pos ftp
      if got = ftp then
        let w := sink pos ftp
        if w = ftp then
          let rest := ma_write_go src sink ab (r + 1 - ftp) (pos + ftp) (i + 1)
          (ev.check i false :: ev.read pos ftp got :: ev.write pos ftp w :: rest.1, rest.2)
        else
          ([ev.check i false, ev.read pos ftp got, ev.write pos ftp w], outcome.error)
      else
        ([ev.check i false, ev.read pos ftp got], outcome.error)
termination_by r _ _ => r
decreasing_by exact chunk_lt r

/-- The `detail::wavpack_write_int_chunks(header, in, context, should_abort)`
loop (lines 1436-1465): identical control flow to the `ma_write` loop — the
in-place float-to-int rescale by `wavpack_int_scale` does not change any
frame count — except that it returns success without committing (the commit
is performed by its caller `wavpack_write` after `WavpackFlushSamples`).
`sink` is the frame count reported by `WavpackPackSamples`. -/
def wavpack_write_int_go (src sink : Nat → Nat → Nat) (ab : Nat → Bool) :
    Nat → Nat → Nat → List ev × outcome
  | 0, _, _ => ([], outcome.success)
  | r + 1, pos, i =>
    if ab i then ([ev.check i true], outcome.abort)
    else
      let ftp := min (r + 1) CHUNK_SIZE
      let got := src pos ftp
      if got = ftp then
        let w := sink pos ftp
        if w = ftp then
          let rest := wavpack_write_int_go src sink ab (r + 1 - ftp) (pos + ftp) (i + 1)
          (ev.check i false :: ev.read pos ftp got :: ev.write pos ftp w :: rest.1, rest.2)
        else
          ([ev.check i false, ev.read pos ftp got, ev.write pos ftp w], outcome.error)
      else
        ([ev.check i false, ev.read pos ftp got], outcome.error)
termination_by r _ _ => r
decreasing_by exact chunk_lt r

/-- The `detail::wavpack_read_float_chunks(out, context, header, should_abort)`
loop (lines 1536-1558): per iteration it checks cancellation, unpacks
`min(frames_remaining, CHUNK_SIZE)` frames from WavPack (throwing on a short
unpack), writes them to the item output stream (throwing on a short write),
and returns success on exit without any commit.  The loop keeps no position
variable, so the oracles are keyed by the iteration index. -/
def wavpack_read_float_go (src sink : Nat → Nat → Nat) (ab : Nat → Bool) :
    Nat → Nat → List ev × outcome
  | 0, _ => ([], outcome.success)
  | r + 1, i =>
    if ab i then ([ev.check i true], outcome.abort)
    else
      let ftr := min (r + 1) CHUNK_SIZE
      let got := src i ftr
      if got = ftr then
        let w := sink i ftr
        if w = ftr then
          let rest := wavpack_read_float_go src sink ab (r + 1 - ftr) (i + 1)
          (ev.check i false :: ev.read i ftr got :: ev.write i ftr w :: rest.1, rest.2)
        else
          ([ev.check i false, ev.read i ftr got, ev.write i ftr w], outcome.error)
      else
        ([ev.check i false, ev.read i ftr got], outcome.error)
termination_by r _ => r
decreasing_by exact chunk_lt r

/-- The chunk loop of `detail::ma_try_read(out, format, ...)` (lines
1496-1514): after `out->write_header(header)` it pulls
`min(frames_remaining, CHUNK_SIZE)` decoded frames per iteration (throwing
on a short decode), writes them to the item output stream (throwing on a
short write), checking cancellation once per iteration; no commit. -/
def ma_read_go (src sink : Nat → Nat → Nat) (ab : Nat → Bool) :
    Nat → Nat → List ev × outcome
  | 0, _ => ([], outcome.success)
  | r + 1, i =>
    if ab i then ([ev.check i true], outcome.abort)
    else
      let ftr := min (r + 1) CHUNK_SIZE
      let got := src i ftr
      if got = ftr then
        let w := sink i ftr
        if w = ftr then
          let rest := ma_read_go src sink ab (r + 1 - ftr) (i + 1)
          (ev.check i false :: ev.read i ftr got :: ev.write i ftr w :: rest.1, rest.2)
        else
          ([ev.check i false, ev.read i ftr got, ev.write i ftr w], outcome.error)
      else
        ([ev.check i false, ev.read i ftr got], outcome.error)
termination_by r _ => r
decreasing_by exact chunk_lt r

/-- The catching overload `detail::ma_try_read(in, out, format, should_abort)`
(lines 1524-1528): decoder construction may fail (`init_ok`), and any
exception from the inner body is caught and turned into
`operation_result::fail`. -/
def ma_try_read_result (init_ok : Bool) (src sink : Nat → Nat → Nat)
    (ab : Nat → Bool) (R : Nat) : operation_result :=
  if init_ok then to_operation_result (ma_read_go src sink ab R 0).2
  else operation_result.fail

/-! ## The atomic file writer and the file-system model -/

/-- The file system as seen through one destination path: the content (a
byte count) at the destination, and at its `<dest>.tmp` sibling; `none`
means the file does not exist. -/
structure fs_state where
  dest : Option Nat
  tmp : Option Nat
deriving DecidableEq, Repr

/-- The side effects `atomic_file_writer::commit` can perform. -/
inductive afw_action
  | flush
  | close_file
  | rename
deriving DecidableEq, Repr

/-- `detail::atomic_file_writer`: the file-system view plus the
`commit_flag_` member. -/
structure writer_state where
  fs : fs_state
  committed : Bool
deriving DecidableEq, Repr

/-- `atomic_file_writer::atomic_file_writer(path)`: opening the
`std::ofstream` on `tmp_path_` creates the empty `.tmp` file;
`commit_flag_` starts false. -/
def afw_create (fs : fs_state) : writer_state :=
  ⟨⟨fs.dest, some 0⟩, false⟩

/-- `atomic_file_writer::commit` (lines 73-80): when `commit_flag_` is not
yet set it flushes, closes, renames `tmp_path_` onto `path_` and sets the
flag; otherwise it does nothing.  Returns the new state and the actions
performed. -/
def afw_commit (w : writer_state) : writer_state × List afw_action :=
  if w.committed then (w, [])
  else (⟨⟨w.fs.tmp, none⟩, true⟩, [afw_action.flush, afw_action.close_file, afw_action.rename])

/-- `atomic_file_writer::~atomic_file_writer` (lines 63-71): when the writer
was not committed, close the stream and remove the `.tmp` file (best
effort); a committed writer's destructor does nothing. -/
def afw_destroy (w : writer_state) : fs_state :=
  if w.committed then w.fs else ⟨w.fs.dest, none⟩

/-- Replay a pipeline trace against the atomic file writer wrapped by
`file_byte_output_stream`: every frame chunk pushed to the encoder reaches
the writer's `std::ofstream` on the `.tmp` file (the backend passes the
encoded bytes through `write_bytes`), and `commit` is
`atomic_file_writer::commit`. -/
def apply_events (w : writer_state) : List ev → writer_state
  | [] => w
  | ev.write _ _ g :: rest =>
      apply_events ⟨⟨w.fs.dest, some (w.fs.tmp.getD 0 + g)⟩, w.committed⟩ rest
  | ev.commit :: rest => apply_events (afw_commit w).1 rest
  | _ :: rest => apply_events w rest

/-- `audiorw::write(item, path, type, should_abort)` for a non-wavpack
format: constructs a `file_byte_output_stream` (creating the `.tmp` file),
runs the `ma_write` loop against it, and destroys the stream when the call
returns — by normal return, abort or exception alike. -/
def ma_write_path (fs0 : fs_state) (src sink : Nat → Nat → Nat) (ab : Nat → Bool)
    (R : Nat) : fs_state × outcome :=
  let res := ma_write_go src sink ab R 0 0
  (afw_destroy (apply_events (afw_create fs0) res.1), res.2)

/-- The events `detail::wavpack_write(header, in, out, type, should_abort)`
(lines 1477-1488) performs against the output stream: the chunk loop's
events, followed by `out->commit()` exactly when the chunk loop succeeded
and `WavpackFlushSamples` succeeded (`flush_ok`). -/
def wavpack_write_trace (src sink : Nat → Nat → Nat) (ab : Nat → Bool) (R : Nat)
    (flush_ok : Bool) : List ev :=
  let res := wavpack_write_int_go src sink ab R 0 0
  if res.2 = outcome.success then
    (if flush_ok then res.1 ++ [ev.commit] else res.1)
  else res.1

/-- `audiorw::write(item, path, type, should_abort)` for the wavpack format
with integer storage: constructs the `file_byte_output_stream`, runs
`wavpack_write`, and destroys the stream when the call returns.  A failed
`WavpackFlushSamples` throws, which is the `outcome.error` result. -/
def wavpack_write_path (fs0 : fs_state) (src sink : Nat → Nat → Nat) (ab : Nat → Bool)
    (R : Nat) (flush_ok : Bool) : fs_state × outcome :=
  let res := wavpack_write_int_go src sink ab R 0 0
  let o := if res.2 = outcome.success then
      (if flush_ok then outcome.success else outcome.error)
    else res.2
  (afw_destroy (apply_events (afw_create fs0) (wavpack_write_trace src sink ab R flush_ok)), o)

/-! ## Trace observations -/

/-- Is an event a cancellation check? -/
def is_check : ev → Bool
  | ev.check _ _ => true
  | _ => false

/-- Total number of frames the source yielded along a trace. -/
def sum_read : List ev → Nat
  | [] => 0
  | ev.read _ _ g :: rest => g + sum_read rest
  | _ :: rest => sum_read rest

/-- Shape of a well-formed chunk-loop trace: iterations of exactly one
cancellation check followed by the chunk's read and write; a trace may end
at a successful drain (empty tail or lone `commit`), at a check that
observed cancellation, or at a short read or short write. -/
def wf_trace : List ev → Bool
  | [] => true
  | [ev.commit] => true
  | [ev.check _ b] => b
  | [ev.check _ false, ev.read _ _ _] => true
  | ev.check _ false :: ev.read _ _ _ :: ev.write _ _ _ :: rest => wf_trace rest
  | _ => false

/-! ## Structural lemmas about the ma_write loop

Branch equations for `ma_write_go`, one per control path of the loop
body, used to drive the inductions below. -/

section ma_write_lemmas

variable (src sink : Nat → Nat → Nat) (ab : Nat → Bool)

theorem ma_write_go_zero (pos i : Nat) :
    ma_write_go src sink ab 0 pos i = ([ev.commit], outcome.success) := by
  rw [ma_write_go]

theorem ma_write_go_abort {i : Nat} (r pos : Nat) (hab : ab i = true) :
    ma_write_go src sink ab (r + 1) pos i = ([ev.check i true], outcome.abort) := by
  rw [ma_write_go]; simp [hab]

theorem ma_write_go_short_read {pos i : Nat} (r : Nat) (hab : ab i = false)
    (hg : src pos (min (r + 1) CHUNK_SIZE) ≠ min (r + 1) CHUNK_SIZE) :
    ma_write_go src sink ab (r + 1) pos i =
      ([ev.check i false,
        ev.read pos (min (r + 1) CHUNK_SIZE) (src pos (min (r + 1) CHUNK_SIZE))],
       outcome.error) := by
  rw [ma_write_go]; simp [hab, hg]

theorem ma_write_go_short_write {pos i : Nat} (r : Nat) (hab : ab i = false)
    (hg : src pos (min (r + 1) CHUNK_SIZE) = min (r + 1) CHUNK_SIZE)
    (hw : sink pos (min (r + 1) CHUNK_SIZE) ≠ min (r + 1) CHUNK_SIZE) :
    ma_write_go src sink ab (r + 1) pos i =
      ([ev.check i false,
        ev.read pos (min (r + 1) CHUNK_SIZE) (min (r + 1) CHUNK_SIZE),
        ev.write pos (min (r + 1) CHUNK_SIZE) (sink pos (min (r + 1) CHUNK_SIZE))],
       outcome.error) := by
  rw [ma_write_go]; simp [hab, hg, hw]

theorem ma_write_go_full {pos i : Nat} (r : Nat) (hab : ab i = false)
    (hg : src pos (min (r + 1) CHUNK_SIZE) = min (r + 1) CHUNK_SIZE)
    (hw : sink pos (min (r + 1) CHUNK_SIZE) = min (r + 1) CHUNK_SIZE) :
    ma_write_go src sink ab (r + 1) pos i =
      (ev.check i false
        :: ev.read pos (min (r + 1) CHUNK_SIZE) (min (r + 1) CHUNK_SIZE)
        :: ev.write pos (min (r + 1) CHUNK_SIZE) (min (r + 1) CHUNK_SIZE)
        :: (ma_write_go src sink ab (r + 1 - min (r + 1) CHUNK_SIZE)
              (pos + min (r + 1) CHUNK_SIZE) (i + 1)).1,
       (ma_write_go src sink ab (r + 1 - min (r + 1) CHUNK_SIZE)
          (pos + min (r + 1) CHUNK_SIZE) (i + 1)).2) := by
  rw [ma_write_go]; simp [hab, hg, hw]

theorem ma_write_go_commit_iff :
    ∀ r pos i, (ev.commit ∈ (ma_write_go src sink ab r pos i).1 ↔
      (ma_write_go src sink ab r pos i).2 = outcome.success) := by
  intro r
  induction r using Nat.strong_induction_on with
  | _ r ih =>
    intro pos i
    cases r with
    | zero => simp [ma_write_go_zero]
    | succ r =>
      by_cases hab : ab i = true
      · simp [ma_write_go_abort src sink ab r pos hab]
      · rw [Bool.not_eq_true] at hab
        by_cases hg : src pos (min (r + 1) CHUNK_SIZE) = min (r + 1) CHUNK_SIZE
        · by_cases hw : sink pos (min (r + 1) CHUNK_SIZE) = min (r + 1) CHUNK_SIZE
          · rw [ma_write_go_full src sink ab r hab hg hw]
            have := ih (r + 1 - min (r + 1) CHUNK_SIZE) (chunk_lt r)
              (pos + min (r + 1) CHUNK_SIZE) (i + 1)
            simpa using this
          · simp [ma_write_go_short_write src sink ab r hab hg hw]
        · simp [ma_write_go_short_read src sink ab r hab hg]

theorem ma_write_go_read_req :
    ∀ r pos i p q g, ev.read p q g ∈ (ma_write_go src sink ab r pos i).1 →
      ∃ d, d ≤ r ∧ p = pos + d ∧ q = min (r - d) CHUNK_SIZE := by
  intro r
  induction r using Nat.strong_induction_on with
  | _ r ih =>
    intro pos i p q g hmem
    cases r with
    | zero => simp [ma_write_go_zero] at hmem
    | succ r =>
      by_cases hab : ab i = true
      · simp [ma_write_go_abort src sink ab r pos hab] at hmem
      · rw [Bool.not_eq_true] at hab
        by_cases hg : src pos (min (r + 1) CHUNK_SIZE) = min (r + 1) CHUNK_SIZE
        · by_cases hw : sink pos (min (r + 1) CHUNK_SIZE) = min (r + 1) CHUNK_SIZE
          · rw [ma_write_go_full src sink ab r hab hg hw] at hmem
            simp only [List.mem_cons] at hmem
            rcases hmem with h | h | h | h
            · simp at h
            · obtain ⟨rfl, rfl, rfl⟩ := by simpa using h
              exact ⟨0, by omega, by omega, by simp⟩
            · simp at h
            · obtain ⟨d, hd, hp, hq⟩ := ih (r + 1 - min (r + 1) CHUNK_SIZE) (chunk_lt r)
                (pos + min (r + 1) CHUNK_SIZE) (i + 1) p q g h
              have hle := chunk_le r
              refine ⟨min (r + 1) CHUNK_SIZE + d, by omega, by omega, ?_⟩
              rw [hq, Nat.sub_sub]
          · rw [ma_write_go_short_write src sink ab r hab hg hw] at hmem
            simp only [List.mem_cons, List.not_mem_nil, or_false] at hmem
            rcases hmem with h | h | h
            · simp at h
            · obtain ⟨rfl, rfl, rfl⟩ := by simpa using h
              exact ⟨0, by omega, by omega, by simp⟩
            · simp at h
        · rw [ma_write_go_short_read src sink ab r hab hg] at hmem
          simp only [List.mem_cons, List.not_mem_nil, or_false] at hmem
          rcases hmem with h | h
          · simp at h
          · obtain ⟨rfl, rfl, rfl⟩ := by simpa using h
            exact ⟨0, by omega, by omega, by simp⟩

theorem ma_write_go_checks :
    ∀ r pos i, ∃ k, (ma_write_go src sink ab r pos i).1.filter is_check =
      (List.range' i k).map (fun j => ev.check j (ab j)) := by
  intro r
  induction r using Nat.strong_induction_on with
  | _ r ih =>
    intro pos i
    cases r with
    | zero => exact ⟨0, by simp [ma_write_go_zero, is_check]⟩
    | succ r =>
      by_cases hab : ab i = true
      · refine ⟨1, ?_⟩
        simp [ma_write_go_abort src sink ab r pos hab, is_check, hab]
      · rw [Bool.not_eq_true] at hab
        by_cases hg : src pos (min (r + 1) CHUNK_SIZE) = min (r + 1) CHUNK_SIZE
        · by_cases hw : sink pos (min (r + 1) CHUNK_SIZE) = min (r + 1) CHUNK_SIZE
          · obtain ⟨k, hk⟩ := ih (r + 1 - min (r + 1) CHUNK_SIZE) (chunk_lt r)
              (pos + min (r + 1) CHUNK_SIZE) (i + 1)
            refine ⟨k + 1, ?_⟩
            rw [ma_write_go_full src sink ab r hab hg hw]
            simp [is_check, List.range'_succ, hk, hab]
          · refine ⟨1, ?_⟩
            simp [ma_write_go_short_write src sink ab r hab hg hw, is_check, hab]
        · refine ⟨1, ?_⟩
          simp [ma_write_go_short_read src sink ab r hab hg, is_check, hab]

theorem ma_write_go_wf :
    ∀ r pos i, wf_trace (ma_write_go src sink ab r pos i).1 = true := by
  intro r
  induction r using Nat.strong_induction_on with
  | _ r ih =>
    intro pos i
    cases r with
    | zero => simp [ma_write_go_zero, wf_trace]
    | succ r =>
      by_cases hab : ab i = true
      · simp [ma_write_go_abort src sink ab r pos hab, wf_trace]
      · rw [Bool.not_eq_true] at hab
        by_cases hg : src pos (min (r + 1) CHUNK_SIZE) = min (r + 1) CHUNK_SIZE
        · by_cases hw : sink pos (min (r + 1) CHUNK_SIZE) = min (r + 1) CHUNK_SIZE
          · rw [ma_write_go_full src sink ab r hab hg hw]
            simp only [wf_trace]
            exact ih (r + 1 - min (r + 1) CHUNK_SIZE) (chunk_lt r)
              (pos + min (r + 1) CHUNK_SIZE) (i + 1)
          · simp [ma_write_go_short_write src sink ab r hab hg hw, wf_trace]
        · simp [ma_write_go_short_read src sink ab r hab hg, wf_trace]

theorem ma_write_go_abort_tail :
    ∀ r pos i j, ev.check j true ∈ (ma_write_go src sink ab r pos i).1 →
      (∃ t, (ma_write_go src sink ab r pos i).1 = t ++ [ev.check j true])
      ∧ (ma_write_go src sink ab r pos i).2 = outcome.abort := by
  intro r
  induction r using Nat.strong_induction_on with
  | _ r ih =>
    intro pos i j hmem
    cases r with
    | zero => simp [ma_write_go_zero] at hmem
    | succ r =>
      by_cases hab : ab i = true
      · rw [ma_write_go_abort src sink ab r pos hab] at hmem ⊢
        obtain rfl : j = i := by simpa using hmem
        exact ⟨⟨[], rfl⟩, rfl⟩
      · rw [Bool.not_eq_true] at hab
        by_cases hg : src pos (min (r + 1) CHUNK_SIZE) = min (r + 1) CHUNK_SIZE
        · by_cases hw : sink pos (min (r + 1) CHUNK_SIZE) = min (r + 1) CHUNK_SIZE
          · rw [ma_write_go_full src sink ab r hab hg hw] at hmem ⊢
            simp only [List.mem_cons] at hmem
            rcases hmem with h | h | h | h
            · simp at h
            · simp at h
            · simp at h
            · obtain ⟨⟨t, ht⟩, habort⟩ := ih (r + 1 - min (r + 1) CHUNK_SIZE) (chunk_lt r)
                (pos + min (r + 1) CHUNK_SIZE) (i + 1) j h
              refine ⟨⟨ev.check i false :: ev.read pos (min (r + 1) CHUNK_SIZE)
                (min (r + 1) CHUNK_SIZE) :: ev.write pos (min (r + 1) CHUNK_SIZE)
                (min (r + 1) CHUNK_SIZE) :: t, ?_⟩, habort⟩
              simp [ht]
          · rw [ma_write_go_short_write src sink ab r hab hg hw] at hmem
            simp at hmem
        · rw [ma_write_go_short_read src sink ab r hab hg] at hmem
          simp at hmem

theorem ma_write_go_sum :
    ∀ r pos i, (ma_write_go src sink ab r pos i).2 = outcome.success →
      sum_read (ma_write_go src sink ab r pos i).1 = r := by
  intro r
  induction r using Nat.strong_induction_on with
  | _ r ih =>
    intro pos i hsucc
    cases r with
    | zero => simp [ma_write_go_zero, sum_read]
    | succ r =>
      by_cases hab : ab i = true
      · rw [ma_write_go_abort src sink ab r pos hab] at hsucc
        simp at hsucc
      · rw [Bool.not_eq_true] at hab
        by_cases hg : src pos (min (r + 1) CHUNK_SIZE) = min (r + 1) CHUNK_SIZE
        · by_cases hw : sink pos (min (r + 1) CHUNK_SIZE) = min (r + 1) CHUNK_SIZE
          · rw [ma_write_go_full src sink ab r hab hg hw] at hsucc ⊢
            simp only [sum_read]
            have hrec := ih (r + 1 - min (r + 1) CHUNK_SIZE) (chunk_lt r)
              (pos + min (r + 1) CHUNK_SIZE) (i + 1) hsucc
            have hle := chunk_le r
            omega
          · rw [ma_write_go_short_write src sink ab r hab hg hw] at hsucc
            simp at hsucc
        · rw [ma_write_go_short_read src sink ab r hab hg] at hsucc
          simp at hsucc

theorem ma_write_go_short_read_error :
    ∀ r pos i p q g, ev.read p q g ∈ (ma_write_go src sink ab r pos i).1 → g ≠ q →
      (ma_write_go src sink ab r pos i).2 = outcome.error := by
  intro r
  induction r using Nat.strong_induction_on with
  | _ r ih =>
    intro pos i p q g hmem hne
    cases r with
    | zero => simp [ma_write_go_zero] at hmem
    | succ r =>
      by_cases hab : ab i = true
      · simp [ma_write_go_abort src sink ab r pos hab] at hmem
      · rw [Bool.not_eq_true] at hab
        by_cases hg : src pos (min (r + 1) CHUNK_SIZE) = min (r + 1) CHUNK_SIZE
        · by_cases hw : sink pos (min (r + 1) CHUNK_SIZE) = min (r + 1) CHUNK_SIZE
          · rw [ma_write_go_full src sink ab r hab hg hw] at hmem ⊢
            simp only [List.mem_cons] at hmem
            rcases hmem with h | h | h | h
            · simp at h
            · obtain ⟨rfl, rfl, rfl⟩ := by simpa using h
              exact absurd rfl hne
            · simp at h
            · exact ih (r + 1 - min (r + 1) CHUNK_SIZE) (chunk_lt r)
                (pos + min (r + 1) CHUNK_SIZE) (i + 1) p q g h hne
          · rw [ma_write_go_short_write src sink ab r hab hg hw]
        · rw [ma_write_go_short_read src sink ab r hab hg]

theorem ma_write_go_short_write_error :
    ∀ r pos i p q g, ev.write p q g ∈ (ma_write_go src sink ab r pos i).1 → g ≠ q →
      (ma_write_go src sink ab r pos i).2 = outcome.error := by
  intro r
  induction r using Nat.strong_induction_on with
  | _ r ih =>
    intro pos i p q g hmem hne
    cases r with
    | zero => simp [ma_write_go_zero] at hmem
    | succ r =>
      by_cases hab : ab i = true
      · simp [ma_write_go_abort src sink ab r pos hab] at hmem
      · rw [Bool.not_eq_true] at hab
        by_cases hg : src pos (min (r + 1) CHUNK_SIZE) = min (r + 1) CHUNK_SIZE
        · by_cases hw : sink pos (min (r + 1) CHUNK_SIZE) = min (r + 1) CHUNK_SIZE
          · rw [ma_write_go_full src sink ab r hab hg hw] at hmem ⊢
            simp only [List.mem_cons] at hmem
            rcases hmem with h | h | h | h
            · simp at h
            · simp at h
            · obtain ⟨rfl, rfl, rfl⟩ := by simpa using h
              exact absurd rfl hne
            · exact ih (r + 1 - min (r + 1) CHUNK_SIZE) (chunk_lt r)
                (pos + min (r + 1) CHUNK_SIZE) (i + 1) p q g h hne
          · rw [ma_write_go_short_write src sink ab r hab hg hw]
        · rw [ma_write_go_short_read src sink ab r hab hg]

end ma_write_lemmas

/-! ## Structural lemmas about the wavpack_write_int_chunks loop -/

section wavpack_write_lemmas

variable (src sink : Nat → Nat → Nat) (ab : Nat → Bool)

theorem wavpack_write_int_go_zero (pos i : Nat) :
    wavpack_write_int_go src sink ab 0 pos i = ([], outcome.success) := by
  rw [wavpack_write_int_go]

theorem wavpack_write_int_go_abort {i : Nat} (r pos : Nat) (hab : ab i = true) :
    wavpack_write_int_go src sink ab (r + 1) pos i
      = ([ev.check i true], outcome.abort) := by
  rw [wavpack_write_int_go]; simp [hab]

theorem wavpack_write_int_go_short_read {pos i : Nat} (r : Nat) (hab : ab i = false)
    (hg : src pos (min (r + 1) CHUNK_SIZE) ≠ min (r + 1) CHUNK_SIZE) :
    wavpack_write_int_go src sink ab (r + 1) pos i =
      ([ev.check i false,
        ev.read pos (min (r + 1) CHUNK_SIZE) (src pos (min (r + 1) CHUNK_SIZE))],
       outcome.error) := by
  rw [wavpack_write_int_go]; simp [hab, hg]

theorem wavpack_write_int_go_short_write {pos i : Nat} (r : Nat) (hab : ab i = false)
    (hg : src pos (min (r + 1) CHUNK_SIZE) = min (r + 1) CHUNK_SIZE)
    (hw : sink pos (min (r + 1) CHUNK_SIZE) ≠ min (r + 1) CHUNK_SIZE) :
    wavpack_write_int_go src sink ab (r + 1) pos i =
      ([ev.check i false,
        ev.read pos (min (r + 1) CHUNK_SIZE) (min (r + 1) CHUNK_SIZE),
        ev.write pos (min (r + 1) CHUNK_SIZE) (sink pos (min (r + 1) CHUNK_SIZE))],
       outcome.error) := by
  rw [wavpack_write_int_go]; simp [hab, hg, hw]

theorem wavpack_write_int_go_full {pos i : Nat} (r : Nat) (hab : ab i = false)
    (hg : src pos (min (r + 1) CHUNK_SIZE) = min (r + 1) CHUNK_SIZE)
    (hw : sink pos (min (r + 1) CHUNK_SIZE) = min (r + 1) CHUNK_SIZE) :
    wavpack_write_int_go src sink ab (r + 1) pos i =
      (ev.check i false
        :: ev.read pos (min (r + 1) CHUNK_SIZE) (min (r + 1) CHUNK_SIZE)
        :: ev.write pos (min (r + 1) CHUNK_SIZE) (min (r + 1) CHUNK_SIZE)
        :: (wavpack_write_int_go src sink ab (r + 1 - min (r + 1) CHUNK_SIZE)
              (pos + min (r + 1) CHUNK_SIZE) (i + 1)).1,
       (wavpack_write_int_go src sink ab (r + 1 - min (r + 1) CHUNK_SIZE)
          (pos + min (r + 1) CHUNK_SIZE) (i + 1)).2) := by
  rw [wavpack_write_int_go]; simp [hab, hg, hw]

theorem wavpack_write_int_go_no_commit :
    ∀ r pos i, ev.commit ∉ (wavpack_write_int_go src sink ab r pos i).1 := by
  intro r
  induction r using Nat.strong_induction_on with
  | _ r ih =>
    intro pos i
    cases r with
    | zero => simp [wavpack_write_int_go_zero]
    | succ r =>
      by_cases hab : ab i = true
      · simp [wavpack_write_int_go_abort src sink ab r pos hab]
      · rw [Bool.not_eq_true] at hab
        by_cases hg : src pos (min (r + 1) CHUNK_SIZE) = min (r + 1) CHUNK_SIZE
        · by_cases hw : sink pos (min (r + 1) CHUNK_SIZE) = min (r + 1) CHUNK_SIZE
          · rw [wavpack_write_int_go_full src sink ab r hab hg hw]
            simp only [List.mem_cons, not_or]
            refine ⟨by simp, by simp, by simp, ?_⟩
            exact ih (r + 1 - min (r + 1) CHUNK_SIZE) (chunk_lt r)
              (pos + min (r + 1) CHUNK_SIZE) (i + 1)
          · simp [wavpack_write_int_go_short_write src sink ab r hab hg hw]
        · simp [wavpack_write_int_go_short_read src sink ab r hab hg]

theorem wavpack_write_int_go_read_req :
    ∀ r pos i p q g, ev.read p q g ∈ (wavpack_write_int_go src sink ab r pos i).1 →
      ∃ d, d ≤ r ∧ p = pos + d ∧ q = min (r - d) CHUNK_SIZE := by
  intro r
  induction r using Nat.strong_induction_on with
  | _ r ih =>
    intro pos i p q g hmem
    cases r with
    | zero => simp [wavpack_write_int_go_zero] at hmem
    | succ r =>
      by_cases hab : ab i = true
      · simp [wavpack_write_int_go_abort src sink ab r pos hab] at hmem
      · rw [Bool.not_eq_true] at hab
        by_cases hg : src pos (min (r + 1) CHUNK_SIZE) = min (r + 1) CHUNK_SIZE
        · by_cases hw : sink pos (min (r + 1) CHUNK_SIZE) = min (r + 1) CHUNK_SIZE
          · rw [wavpack_write_int_go_full src sink ab r hab hg hw] at hmem
            simp only [List.mem_cons] at hmem
            rcases hmem with h | h | h | h
            · simp at h
            · obtain ⟨rfl, rfl, rfl⟩ := by simpa using h
              exact ⟨0, by omega, by omega, by simp⟩
            · simp at h
            · obtain ⟨d, hd, hp, hq⟩ := ih (r + 1 - min (r + 1) CHUNK_SIZE) (chunk_lt r)
                (pos + min (r + 1) CHUNK_SIZE) (i + 1) p q g h
              have hle := chunk_le r
              refine ⟨min (r + 1) CHUNK_SIZE + d, by omega, by omega, ?_⟩
              rw [hq, Nat.sub_sub]
          · rw [wavpack_write_int_go_short_write src sink ab r hab hg hw] at hmem
            simp only [List.mem_cons, List.not_mem_nil, or_false] at hmem
            rcases hmem with h | h | h
            · simp at h
            · obtain ⟨rfl, rfl, rfl⟩ := by simpa using h
              exact ⟨0, by omega, by omega, by simp⟩
            · simp at h
        · rw [wavpack_write_int_go_short_read src sink ab r hab hg] at hmem
          simp only [List.mem_cons, List.not_mem_nil, or_false] at hmem
          rcases hmem with h | h
          · simp at h
          · obtain ⟨rfl, rfl, rfl⟩ := by simpa using h
            exact ⟨0, by omega, by omega, by simp⟩

theorem wavpack_write_int_go_checks :
    ∀ r pos i, ∃ k, (wavpack_write_int_go src sink ab r pos i).1.filter is_check =
      (List.range' i k).map (fun j => ev.check j (ab j)) := by
  intro r
  induction r using Nat.strong_induction_on with
  | _ r ih =>
    intro pos i
    cases r with
    | zero => exact ⟨0, by simp [wavpack_write_int_go_zero]⟩
    | succ r =>
      by_cases hab : ab i = true
      · refine ⟨1, ?_⟩
        simp [wavpack_write_int_go_abort src sink ab r pos hab, is_check, hab]
      · rw [Bool.not_eq_true] at hab
        by_cases hg : src pos (min (r + 1) CHUNK_SIZE) = min (r + 1) CHUNK_SIZE
        · by_cases hw : sink pos (min (r + 1) CHUNK_SIZE) = min (r + 1) CHUNK_SIZE
          · obtain ⟨k, hk⟩ := ih (r + 1 - min (r + 1) CHUNK_SIZE) (chunk_lt r)
              (pos + min (r + 1) CHUNK_SIZE) (i + 1)
            refine ⟨k + 1, ?_⟩
            rw [wavpack_write_int_go_full src sink ab r hab hg hw]
            simp [is_check, List.range'_succ, hk, hab]
          · refine ⟨1, ?_⟩
            simp [wavpack_write_int_go_short_write src sink ab r hab hg hw, is_check, hab]
        · refine ⟨1, ?_⟩
          simp [wavpack_write_int_go_short_read src sink ab r hab hg, is_check, hab]

theorem wavpack_write_int_go_wf :
    ∀ r pos i, wf_trace (wavpack_write_int_go src sink ab r pos i).1 = true := by
  intro r
  induction r using Nat.strong_induction_on with
  | _ r ih =>
    intro pos i
    cases r with
    | zero => simp [wavpack_write_int_go_zero, wf_trace]
    | succ r =>
      by_cases hab : ab i = true
      · simp [wavpack_write_int_go_abort src sink ab r pos hab, wf_trace]
      · rw [Bool.not_eq_true] at hab
        by_cases hg : src pos (min (r + 1) CHUNK_SIZE) = min (r + 1) CHUNK_SIZE
        · by_cases hw : sink pos (min (r + 1) CHUNK_SIZE) = min (r + 1) CHUNK_SIZE
          · rw [wavpack_write_int_go_full src sink ab r hab hg hw]
            simp only [wf_trace]
            exact ih (r + 1 - min (r + 1) CHUNK_SIZE) (chunk_lt r)
              (pos + min (r + 1) CHUNK_SIZE) (i + 1)
          · simp [wavpack_write_int_go_short_write src sink ab r hab hg hw, wf_trace]
        · simp [wavpack_write_int_go_short_read src sink ab r hab hg, wf_trace]

theorem wavpack_write_int_go_abort_tail :
    ∀ r pos i j, ev.check j true ∈ (wavpack_write_int_go src sink ab r pos i).1 →
      (∃ t, (wavpack_write_int_go src sink ab r pos i).1 = t ++ [ev.check j true])
      ∧ (wavpack_write_int_go src sink ab r pos i).2 = outcome.abort := by
  intro r
  induction r using Nat.strong_induction_on with
  | _ r ih =>
    intro pos i j hmem
    cases r with
    | zero => simp [wavpack_write_int_go_zero] at hmem
    | succ r =>
      by_cases hab : ab i = true
      · rw [wavpack_write_int_go_abort src sink ab r pos hab] at hmem ⊢
        obtain rfl : j = i := by simpa using hmem
        exact ⟨⟨[], rfl⟩, rfl⟩
      · rw [Bool.not_eq_true] at hab
        by_cases hg : src pos (min (r + 1) CHUNK_SIZE) = min (r + 1) CHUNK_SIZE
        · by_cases hw : sink pos (min (r + 1) CHUNK_SIZE) = min (r + 1) CHUNK_SIZE
          · rw [wavpack_write_int_go_full src sink ab r hab hg hw] at hmem ⊢
            simp only [List.mem_cons] at hmem
            rcases hmem with h | h | h | h
            · simp at h
            · simp at h
            · simp at h
            · obtain ⟨⟨t, ht⟩, habort⟩ := ih (r + 1 - min (r + 1) CHUNK_SIZE) (chunk_lt r)
                (pos + min (r + 1) CHUNK_SIZE) (i + 1) j h
              refine ⟨⟨ev.check i false :: ev.read pos (min (r + 1) CHUNK_SIZE)
                (min (r + 1) CHUNK_SIZE) :: ev.write pos (min (r + 1) CHUNK_SIZE)
                (min (r + 1) CHUNK_SIZE) :: t, ?_⟩, habort⟩
              simp [ht]
          · rw [wavpack_write_int_go_short_write src sink ab r hab hg hw] at hmem
            simp at hmem
        · rw [wavpack_write_int_go_short_read src sink ab r hab hg] at hmem
          simp at hmem

theorem wavpack_write_int_go_sum :
    ∀ r pos i, (wavpack_write_int_go src sink ab r pos i).2 = outcome.success →
      sum_read (wavpack_write_int_go src sink ab r pos i).1 = r := by
  intro r
  induction r using Nat.strong_induction_on with
  | _ r ih =>
    intro pos i hsucc
    cases r with
    | zero => simp [wavpack_write_int_go_zero, sum_read]
    | succ r =>
      by_cases hab : ab i = true
      · rw [wavpack_write_int_go_abort src sink ab r pos hab] at hsucc
        simp at hsucc
      · rw [Bool.not_eq_true] at hab
        by_cases hg : src pos (min (r + 1) CHUNK_SIZE) = min (r + 1) CHUNK_SIZE
        · by_cases hw : sink pos (min (r + 1) CHUNK_SIZE) = min (r + 1) CHUNK_SIZE
          · rw [wavpack_write_int_go_full src sink ab r hab hg hw] at hsucc ⊢
            simp only [sum_read]
            have hrec := ih (r + 1 - min (r + 1) CHUNK_SIZE) (chunk_lt r)
              (pos + min (r + 1) CHUNK_SIZE) (i + 1) hsucc
            have hle := chunk_le r
            omega
          · rw [wavpack_write_int_go_short_write src sink ab r hab hg hw] at hsucc
            simp at hsucc
        · rw [wavpack_write_int_go_short_read src sink ab r hab hg] at hsucc
          simp at hsucc

end wavpack_write_lemmas

/-! ## Structural lemmas about the read loops -/

section read_loop_lemmas

variable (src sink : Nat → Nat → Nat) (ab : Nat → Bool)

theorem wavpack_read_float_go_zero (i : Nat) :
    wavpack_read_float_go src sink ab 0 i = ([], outcome.success) := by
  rw [wavpack_read_float_go]

theorem wavpack_read_float_go_abort {i : Nat} (r : Nat) (hab : ab i = true) :
    wavpack_read_float_go src sink ab (r + 1) i = ([ev.check i true], outcome.abort) := by
  rw [wavpack_read_float_go]; simp [hab]

theorem wavpack_read_float_go_short_read {i : Nat} (r : Nat) (hab : ab i = false)
    (hg : src i (min (r + 1) CHUNK_SIZE) ≠ min (r + 1) CHUNK_SIZE) :
    wavpack_read_float_go src sink ab (r + 1) i =
      ([ev.check i false,
        ev.read i (min (r + 1) CHUNK_SIZE) (src i (min (r + 1) CHUNK_SIZE))],
       outcome.error) := by
  rw [wavpack_read_float_go]; simp [hab, hg]

theorem wavpack_read_float_go_short_write {i : Nat} (r : Nat) (hab : ab i = false)
    (hg : src i (min (r + 1) CHUNK_SIZE) = min (r + 1) CHUNK_SIZE)
    (hw : sink i (min (r + 1) CHUNK_SIZE) ≠ min (r + 1) CHUNK_SIZE) :
    wavpack_read_float_go src sink ab (r + 1) i =
      ([ev.check i false,
        ev.read i (min (r + 1) CHUNK_SIZE) (min (r + 1) CHUNK_SIZE),
        ev.write i (min (r + 1) CHUNK_SIZE) (sink i (min (r + 1) CHUNK_SIZE))],
       outcome.error) := by
  rw [wavpack_read_float_go]; simp [hab, hg, hw]

theorem wavpack_read_float_go_full {i : Nat} (r : Nat) (hab : ab i = false)
    (hg : src i (min (r + 1) CHUNK_SIZE) = min (r + 1) CHUNK_SIZE)
    (hw : sink i (min (r + 1) CHUNK_SIZE) = min (r + 1) CHUNK_SIZE) :
    wavpack_read_float_go src sink ab (r + 1) i =
      (ev.check i false
        :: ev.read i (min (r + 1) CHUNK_SIZE) (min (r + 1) CHUNK_SIZE)
        :: ev.write i (min (r + 1) CHUNK_SIZE) (min (r + 1) CHUNK_SIZE)
        :: (wavpack_read_float_go src sink ab (r + 1 - min (r + 1) CHUNK_SIZE) (i + 1)).1,
       (wavpack_read_float_go src sink ab (r + 1 - min (r + 1) CHUNK_SIZE) (i + 1)).2) := by
  rw [wavpack_read_float_go]; simp [hab, hg, hw]

theorem wavpack_read_float_go_no_commit :
    ∀ r i, ev.commit ∉ (wavpack_read_float_go src sink ab r i).1 := by
  intro r
  induction r using Nat.strong_induction_on with
  | _ r ih =>
    intro i
    cases r with
    | zero => simp [wavpack_read_float_go_zero]
    | succ r =>
      by_cases hab : ab i = true
      · simp [wavpack_read_float_go_abort src sink ab r hab]
      · rw [Bool.not_eq_true] at hab
        by_cases hg : src i (min (r + 1) CHUNK_SIZE) = min (r + 1) CHUNK_SIZE
        · by_cases hw : sink i (min (r + 1) CHUNK_SIZE) = min (r + 1) CHUNK_SIZE
          · rw [wavpack_read_float_go_full src sink ab r hab hg hw]
            simp only [List.mem_cons, not_or]
            refine ⟨by simp, by simp, by simp, ?_⟩
            exact ih (r + 1 - min (r + 1) CHUNK_SIZE) (chunk_lt r) (i + 1)
          · simp [wavpack_read_float_go_short_write src sink ab r hab hg hw]
        · simp [wavpack_read_float_go_short_read src sink ab r hab hg]

theorem wavpack_read_float_go_short_read_error :
    ∀ r i p q g, ev.read p q g ∈ (wavpack_read_float_go src sink ab r i).1 → g ≠ q →
      (wavpack_read_float_go src sink ab r i).2 = outcome.error := by
  intro r
  induction r using Nat.strong_induction_on with
  | _ r ih =>
    intro i p q g hmem hne
    cases r with
    | zero => simp [wavpack_read_float_go_zero] at hmem
    | succ r =>
      by_cases hab : ab i = true
      · simp [wavpack_read_float_go_abort src sink ab r hab] at hmem
      · rw [Bool.not_eq_true] at hab
        by_cases hg : src i (min (r + 1) CHUNK_SIZE) = min (r + 1) CHUNK_SIZE
        · by_cases hw : sink i (min (r + 1) CHUNK_SIZE) = min (r + 1) CHUNK_SIZE
          · rw [wavpack_read_float_go_full src sink ab r hab hg hw] at hmem ⊢
            simp only [List.mem_cons] at hmem
            rcases hmem with h | h | h | h
            · simp at h
            · obtain ⟨rfl, rfl, rfl⟩ := by simpa using h
              exact absurd rfl hne
            · simp at h
            · exact ih (r + 1 - min (r + 1) CHUNK_SIZE) (chunk_lt r) (i + 1) p q g h hne
          · rw [wavpack_read_float_go_short_write src sink ab r hab hg hw]
        · rw [wavpack_read_float_go_short_read src sink ab r hab hg]

theorem wavpack_read_float_go_short_write_error :
    ∀ r i p q g, ev.write p q g ∈ (wavpack_read_float_go src sink ab r i).1 → g ≠ q →
      (wavpack_read_float_go src sink ab r i).2 = outcome.error := by
  intro r
  induction r using Nat.strong_induction_on with
  | _ r ih =>
    intro i p q g hmem hne
    cases r with
    | zero => simp [wavpack_read_float_go_zero] at hmem
    | succ r =>
      by_cases hab : ab i = true
      · simp [wavpack_read_float_go_abort src sink ab r hab] at hmem
      · rw [Bool.not_eq_true] at hab
        by_cases hg : src i (min (r + 1) CHUNK_SIZE) = min (r + 1) CHUNK_SIZE
        · by_cases hw : sink i (min (r + 1) CHUNK_SIZE) = min (r + 1) CHUNK_SIZE
          · rw [wavpack_read_float_go_full src sink ab r hab hg hw] at hmem ⊢
            simp only [List.mem_cons] at hmem
            rcases hmem with h | h | h | h
            · simp at h
            · simp at h
            · obtain ⟨rfl, rfl, rfl⟩ := by simpa using h
              exact absurd rfl hne
            · exact ih (r + 1 - min (r + 1) CHUNK_SIZE) (chunk_lt r) (i + 1) p q g h hne
          · rw [wavpack_read_float_go_short_write src sink ab r hab hg hw]
        · rw [wavpack_read_float_go_short_read src sink ab r hab hg]

theorem ma_read_go_zero (i : Nat) :
    ma_read_go src sink ab 0 i = ([], outcome.success) := by
  rw [ma_read_go]

theorem ma_read_go_abort {i : Nat} (r : Nat) (hab : ab i = true) :
    ma_read_go src sink ab (r + 1) i = ([ev.check i true], outcome.abort) := by
  rw [ma_read_go]; simp [hab]

theorem ma_read_go_short_read {i : Nat} (r : Nat) (hab : ab i = false)
    (hg : src i (min (r + 1) CHUNK_SIZE) ≠ min (r + 1) CHUNK_SIZE) :
    ma_read_go src sink ab (r + 1) i =
      ([ev.check i false,
        ev.read i (min (r + 1) CHUNK_SIZE) (src i (min (r + 1) CHUNK_SIZE))],
       outcome.error) := by
  rw [ma_read_go]; simp [hab, hg]

theorem ma_read_go_short_write {i : Nat} (r : Nat) (hab : ab i = false)
    (hg : src i (min (r + 1) CHUNK_SIZE) = min (r + 1) CHUNK_SIZE)
    (hw : sink i (min (r + 1) CHUNK_SIZE) ≠ min (r + 1) CHUNK_SIZE) :
    ma_read_go src sink ab (r + 1) i =
      ([ev.check i false,
        ev.read i (min (r + 1) CHUNK_SIZE) (min (r + 1) CHUNK_SIZE),
        ev.write i (min (r + 1) CHUNK_SIZE) (sink i (min (r + 1) CHUNK_SIZE))],
       outcome.error) := by
  rw [ma_read_go]; simp [hab, hg, hw]

theorem ma_read_go_full {i : Nat} (r : Nat) (hab : ab i = false)
    (hg : src i (min (r + 1) CHUNK_SIZE) = min (r + 1) CHUNK_SIZE)
    (hw : sink i (min (r + 1) CHUNK_SIZE) = min (r + 1) CHUNK_SIZE) :
    ma_read_go src sink ab (r + 1) i =
      (ev.check i false
        :: ev.read i (min (r + 1) CHUNK_SIZE) (min (r + 1) CHUNK_SIZE)
        :: ev.write i (min (r + 1) CHUNK_SIZE) (min (r + 1) CHUNK_SIZE)
        :: (ma_read_go src sink ab (r + 1 - min (r + 1) CHUNK_SIZE) (i + 1)).1,
       (ma_read_go src sink ab (r + 1 - min (r + 1) CHUNK_SIZE) (i + 1)).2) := by
  rw [ma_read_go]; simp [hab, hg, hw]

theorem ma_read_go_no_commit :
    ∀ r i, ev.commit ∉ (ma_read_go src sink ab r i).1 := by
  intro r
  induction r using Nat.strong_induction_on with
  | _ r ih =>
    intro i
    cases r with
    | zero => simp [ma_read_go_zero]
    | succ r =>
      by_cases hab : ab i = true
      · simp [ma_read_go_abort src sink ab r hab]
      · rw [Bool.not_eq_true] at hab
        by_cases hg : src i (min (r + 1) CHUNK_SIZE) = min (r + 1) CHUNK_SIZE
        · by_cases hw : sink i (min (r + 1) CHUNK_SIZE) = min (r + 1) CHUNK_SIZE
          · rw [ma_read_go_full src sink ab r hab hg hw]
            simp only [List.mem_cons, not_or]
            refine ⟨by simp, by simp, by simp, ?_⟩
            exact ih (r + 1 - min (r + 1) CHUNK_SIZE) (chunk_lt r) (i + 1)
          · simp [ma_read_go_short_write src sink ab r hab hg hw]
        · simp [ma_read_go_short_read src sink ab r hab hg]

theorem ma_read_go_short_read_error :
    ∀ r i p q g, ev.read p q g ∈ (ma_read_go src sink ab r i).1 → g ≠ q →
      (ma_read_go src sink ab r i).2 = outcome.error := by
  intro r
  induction r using Nat.strong_induction_on with
  | _ r ih =>
    intro i p q g hmem hne
    cases r with
    | zero => simp [ma_read_go_zero] at hmem
    | succ r =>
      by_cases hab : ab i = true
      · simp [ma_read_go_abort src sink ab r hab] at hmem
      · rw [Bool.not_eq_true] at hab
        by_cases hg : src i (min (r + 1) CHUNK_SIZE) = min (r + 1) CHUNK_SIZE
        · by_cases hw : sink i (min (r + 1) CHUNK_SIZE) = min (r + 1) CHUNK_SIZE
          · rw [ma_read_go_full src sink ab r hab hg hw] at hmem ⊢
            simp only [List.mem_cons] at hmem
            rcases hmem with h | h | h | h
            · simp at h
            · obtain ⟨rfl, rfl, rfl⟩ := by simpa using h
              exact absurd rfl hne
            · simp at h
            · exact ih (r + 1 - min (r + 1) CHUNK_SIZE) (chunk_lt r) (i + 1) p q g h hne
          · rw [ma_read_go_short_write src sink ab r hab hg hw]
        · rw [ma_read_go_short_read src sink ab r hab hg]

theorem ma_read_go_short_write_error :
    ∀ r i p q g, ev.write p q g ∈ (ma_read_go src sink ab r i).1 → g ≠ q →
      (ma_read_go src sink ab r i).2 = outcome.error := by
  intro r
  induction r using Nat.strong_induction_on with
  | _ r ih =>
    intro i p q g hmem hne
    cases r with
    | zero => simp [ma_read_go_zero] at hmem
    | succ r =>
      by_cases hab : ab i = true
      · simp [ma_read_go_abort src sink ab r hab] at hmem
      · rw [Bool.not_eq_true] at hab
        by_cases hg : src i (min (r + 1) CHUNK_SIZE) = min (r + 1) CHUNK_SIZE
        · by_cases hw : sink i (min (r + 1) CHUNK_SIZE) = min (r + 1) CHUNK_SIZE
          · rw [ma_read_go_full src sink ab r hab hg hw] at hmem ⊢
            simp only [List.mem_cons] at hmem
            rcases hmem with h | h | h | h
            · simp at h
            · simp at h
            · obtain ⟨rfl, rfl, rfl⟩ := by simpa using h
              exact absurd rfl hne
            · exact ih (r + 1 - min (r + 1) CHUNK_SIZE) (chunk_lt r) (i + 1) p q g h hne
          · rw [ma_read_go_short_write src sink ab r hab hg hw]
        · rw [ma_read_go_short_read src sink ab r hab hg]

end read_loop_lemmas

/-! ## Lemmas about replaying traces against the atomic file writer -/

theorem apply_events_no_commit (t : List ev) :
    ∀ w : writer_state, ev.commit ∉ t →
      (apply_events w t).committed = w.committed
      ∧ (apply_events w t).fs.dest = w.fs.dest := by
  induction t with
  | nil => intro w _; exact ⟨rfl, rfl⟩
  | cons e rest ih =>
    intro w h
    simp only [List.mem_cons, not_or] at h
    obtain ⟨he, hrest⟩ := h
    cases e with
    | check i b => simpa [apply_events] using ih w hrest
    | read p q g => simpa [apply_events] using ih w hrest
    | write p q g =>
      have := ih ⟨⟨w.fs.dest, some (w.fs.tmp.getD 0 + g)⟩, w.committed⟩ hrest
      simpa [apply_events] using this
    | commit => exact absurd rfl he

theorem apply_events_append (t t' : List ev) :
    ∀ w : writer_state, apply_events w (t ++ t') = apply_events (apply_events w t) t' := by
  induction t with
  | nil => intro w; simp [apply_events]
  | cons e rest ih =>
    intro w
    cases e <;> simp [apply_events, ih]

theorem ma_write_go_apply (src sink : Nat → Nat → Nat) (ab : Nat → Bool) :
    ∀ r pos i (w : writer_state), w.committed = false →
      ((ma_write_go src sink ab r pos i).2 = outcome.success →
        (apply_events w (ma_write_go src sink ab r pos i).1).committed = true
        ∧ (apply_events w (ma_write_go src sink ab r pos i).1).fs.tmp = none)
      ∧ ((ma_write_go src sink ab r pos i).2 ≠ outcome.success →
        (apply_events w (ma_write_go src sink ab r pos i).1).committed = false
        ∧ (apply_events w (ma_write_go src sink ab r pos i).1).fs.dest = w.fs.dest) := by
  intro r
  induction r using Nat.strong_induction_on with
  | _ r ih =>
    intro pos i w hw0
    cases r with
    | zero =>
      rw [ma_write_go_zero]
      constructor
      · intro _
        constructor <;> simp [apply_events, afw_commit, hw0]
      · intro h
        simp at h
    | succ r =>
      by_cases hab : ab i = true
      · rw [ma_write_go_abort src sink ab r pos hab]
        constructor
        · intro h; simp at h
        · intro _
          constructor <;> simp [apply_events, hw0]
      · rw [Bool.not_eq_true] at hab
        by_cases hg : src pos (min (r + 1) CHUNK_SIZE) = min (r + 1) CHUNK_SIZE
        · by_cases hw : sink pos (min (r + 1) CHUNK_SIZE) = min (r + 1) CHUNK_SIZE
          · rw [ma_write_go_full src sink ab r hab hg hw]
            have hrec := ih (r + 1 - min (r + 1) CHUNK_SIZE) (chunk_lt r)
              (pos + min (r + 1) CHUNK_SIZE) (i + 1)
              ⟨⟨w.fs.dest, some (w.fs.tmp.getD 0 + min (r + 1) CHUNK_SIZE)⟩, w.committed⟩
              (by simpa using hw0)
            simpa [apply_events] using hrec
          · rw [ma_write_go_short_write src sink ab r hab hg hw]
            constructor
            · intro h; simp at h
            · intro _
              constructor <;> simp [apply_events, hw0]
        · rw [ma_write_go_short_read src sink ab r hab hg]
          constructor
          · intro h; simp at h
          · intro _
            constructor <;> simp [apply_events, hw0]

/-! ## Claim C1 -/

/-- Claim C1: the claim says the path-based
`read(path, hint, should_abort)` attempts the candidate formats of the
hint's ordered probe sequence and returns the item of the first format
that succeeds.  The code violates this: it passes the literal
`format_hint::try_wav_only` to the stream-based `read` instead of its
`hint` parameter.  At the failing input — a hint of `try_flac_first` over
a byte stream only the FLAC candidate can parse — the path-based read
probes only WAV and fails, while the probe sequence of the given hint
(what the claim prescribes) starts at FLAC and succeeds immediately. -/
theorem C1_path_read_ignores_hint :
    path_read (fun f _ => f = format.flac) (fun _ _ => 0) format_hint.try_flac_first
      = ([(format.wav, 0)], none)
    ∧ detail_read (fun f _ => f = format.flac) (fun _ _ => 0) format_hint.try_flac_first
      = ([(format.flac, 0)], some format.flac)
    ∧ get_formats_to_try format_hint.try_flac_first
      = [format.flac, format.wav, format.mp3, format.wavpack] := by
  decide

/-! ## Claim C3 -/

/-- Claim C3: the claim says every format-resolution entry point —
`make_decoder`, `detail::read` and `detail::read_header` — rewinds the
byte stream to its start before trying the next candidate after a failed
parse.  The code violates this in `detail::read_header`, which has no
`in->seek(0, std::ios::beg)` in its loop.  At the failing input — a hint
of `try_flac_first` over a stream that parses as WAV from position 0
only, each failed probe consuming 5 bytes — `make_decoder` and
`detail::read` rewind and accept WAV at position 0, while `read_header`
probes WAV, MP3 and WavPack at positions 5, 10 and 15 and fails
entirely. -/
theorem C3_read_header_skips_rewind :
    read_header_go (fun f p => f = format.wav ∧ p = 0) (fun _ _ => 5)
        (get_formats_to_try format_hint.try_flac_first) 0
      = ([(format.flac, 0), (format.wav, 5), (format.mp3, 10), (format.wavpack, 15)], none)
    ∧ make_decoder_go (fun f p => f = format.wav ∧ p = 0) (fun _ _ => 5)
        (get_formats_to_try format_hint.try_flac_first) 0
      = ([(format.flac, 0), (format.wav, 0)], some format.wav)
    ∧ detail_read_go (fun f p => f = format.wav ∧ p = 0) (fun _ _ => 5)
        (get_formats_to_try format_hint.try_flac_first) 0
      = ([(format.flac, 0), (format.wav, 0)], some format.wav) := by
  decide

/-! ## Claim C4 -/

/-- Claim C4: the claim says every WavPack integer decode path divides by
`(1 << (bit_depth - 1)) - 1` for every supported bit depth.  The
`wavpack_read_int_chunks` path does; the `stream_read_int_frames` path
instead computes `(1 < (bit_depth - 1)) - 1` — a comparison, not a shift —
which is 0 at every supported bit depth, so each decoded sample is
divided by zero rather than by the full-scale factor. -/
theorem C4_stream_read_int_frames_divisor_is_zero :
    wavpack_read_int_chunks_divisor 8 = 127
    ∧ wavpack_read_int_chunks_divisor 16 = 32767
    ∧ wavpack_read_int_chunks_divisor 24 = 8388607
    ∧ wavpack_read_int_chunks_divisor 32 = 2147483647
    ∧ stream_read_int_frames_divisor 8 = 0
    ∧ stream_read_int_frames_divisor 16 = 0
    ∧ stream_read_int_frames_divisor 24 = 0
    ∧ stream_read_int_frames_divisor 32 = 0
    ∧ stream_read_int_frames_divisor 16 ≠ wavpack_read_int_chunks_divisor 16 := by
  decide

/-! ## Claim C5 -/

/-- Claim C5 counterexample: the claim says `make_format_hint` uppercases
the extension before the catalog lookup, so `".flac"` would resolve to the
FLAC hint; in the code the lookup is case-sensitive against the uppercase
marker `".FLAC"`, so `".flac"` misses the catalog and yields the default
`try_wav_only` rather than `try_flac_only`. -/
theorem C5_lowercase_extension_misses_catalog :
    make_format_hint ".flac" false = format_hint.try_wav_only
    ∧ format_hint.try_wav_only ≠ format_hint.try_flac_only := by
  decide

/-- Claim C5 (amended): `make_format_hint` compares the path's extension
case-sensitively against the catalog's uppercase markers; an extension
exactly equal to a marker resolves to that format's hint (`hint_all` when
`try_all` is set, `hint_only` otherwise), and any other extension —
including lowercase variants — yields the default
`format_hint.try_wav_only`. -/
theorem C5_exact_match_lookup :
    (∀ b : Bool, ∀ info ∈ FORMAT_INFO,
        make_format_hint info.ext b = if b then info.hint_all else info.hint_only)
    ∧ (∀ (extension : String) (b : Bool),
        (∀ info ∈ FORMAT_INFO, info.ext ≠ extension) →
        make_format_hint extension b = format_hint.try_wav_only) := by
  constructor
  · decide
  · intro extension b h
    unfold make_format_hint find_format_info
    rw [List.find?_eq_none.mpr]
    intro info hmem
    simpa using h info hmem

/-- Witness for C5: the uppercase marker `".WAV"` resolves through the
catalog and the unknown extension `".xyz"` falls back to the default. -/
theorem C5_exact_match_lookup_witness :
    make_format_hint ".WAV" true = format_hint.try_wav_first
    ∧ make_format_hint ".xyz" true = format_hint.try_wav_only := by
  constructor
  · have h := C5_exact_match_lookup.1 true
      ⟨format.wav, ".WAV", format_hint.try_wav_only, format_hint.try_wav_first⟩ (by decide)
    simpa using h
  · exact C5_exact_match_lookup.2 ".xyz" true (by decide)

/-! ## Claim C2 -/

/-- Claim C2: for every write to a file path (both the `ma_write` and the
`wavpack_write` pipelines), if the transfer is cancelled or fails at any
chunk boundary — any non-success outcome — then the destination path's
prior content (or absence) is unchanged and no `.tmp` sibling remains
after the call returns; `commit` is invoked on the output sink exactly
when the outcome is success, and success entails that every one of the
`R` frames was pulled from the source. -/
theorem C2_no_partial_output (fs0 : fs_state) (src sink : Nat → Nat → Nat)
    (ab : Nat → Bool) (R : Nat) (flush_ok : Bool) :
    (ma_write_path fs0 src sink ab R).1.tmp = none
    ∧ ((ma_write_path fs0 src sink ab R).2 ≠ outcome.success →
        (ma_write_path fs0 src sink ab R).1.dest = fs0.dest)
    ∧ (ev.commit ∈ (ma_write_go src sink ab R 0 0).1 ↔
        (ma_write_path fs0 src sink ab R).2 = outcome.success)
    ∧ ((ma_write_path fs0 src sink ab R).2 = outcome.success →
        sum_read (ma_write_go src sink ab R 0 0).1 = R)
    ∧ (wavpack_write_path fs0 src sink ab R flush_ok).1.tmp = none
    ∧ ((wavpack_write_path fs0 src sink ab R flush_ok).2 ≠ outcome.success →
        (wavpack_write_path fs0 src sink ab R flush_ok).1.dest = fs0.dest)
    ∧ (ev.commit ∈ wavpack_write_trace src sink ab R flush_ok ↔
        (wavpack_write_path fs0 src sink ab R flush_ok).2 = outcome.success)
    ∧ ((wavpack_write_path fs0 src sink ab R flush_ok).2 = outcome.success →
        sum_read (wavpack_write_int_go src sink ab R 0 0).1 = R) := by
  have hw0 : (afw_create fs0).committed = false := rfl
  have happ := ma_write_go_apply src sink ab R 0 0 (afw_create fs0) hw0
  have hnc := wavpack_write_int_go_no_commit src sink ab R 0 0
  have hreplay := apply_events_no_commit (wavpack_write_int_go src sink ab R 0 0).1
    (afw_create fs0) hnc
  have hc : (apply_events (afw_create fs0)
      (wavpack_write_int_go src sink ab R 0 0).1).committed = false := by
    rw [hreplay.1]; rfl
  have hd : (apply_events (afw_create fs0)
      (wavpack_write_int_go src sink ab R 0 0).1).fs.dest = fs0.dest := by
    rw [hreplay.2]; rfl
  refine ⟨?_, ?_, ?_, ?_, ?_, ?_, ?_, ?_⟩
  · by_cases hs : (ma_write_go src sink ab R 0 0).2 = outcome.success
    · have h := happ.1 hs
      simp [ma_write_path, afw_destroy, h.1, h.2]
    · have h := happ.2 hs
      simp [ma_write_path, afw_destroy, h.1]
  · intro hne
    have hne' : (ma_write_go src sink ab R 0 0).2 ≠ outcome.success := hne
    have h := happ.2 hne'
    have hdest : (apply_events (afw_create fs0)
        (ma_write_go src sink ab R 0 0).1).fs.dest = fs0.dest := by
      rw [h.2]; rfl
    simp [ma_write_path, afw_destroy, h.1, hdest]
  · exact ma_write_go_commit_iff src sink ab R 0 0
  · intro hs
    exact ma_write_go_sum src sink ab R 0 0 hs
  · by_cases hs : (wavpack_write_int_go src sink ab R 0 0).2 = outcome.success
    · by_cases hf : flush_ok = true
      · simp only [wavpack_write_path, wavpack_write_trace, hs, hf, if_true]
        rw [apply_events_append]
        simp [apply_events, afw_commit, hc, afw_destroy]
      · simp only [wavpack_write_path, wavpack_write_trace, hs, hf, if_true, if_false]
        simp [afw_destroy, hc]
    · simp only [wavpack_write_path, wavpack_write_trace, hs, if_false]
      simp [afw_destroy, hc]
  · intro hne
    by_cases hs : (wavpack_write_int_go src sink ab R 0 0).2 = outcome.success
    · by_cases hf : flush_ok = true
      · simp [wavpack_write_path, hs, hf] at hne
      · simp only [wavpack_write_path, wavpack_write_trace, hs, hf, if_true, if_false]
        simp [afw_destroy, hc, hd]
    · simp only [wavpack_write_path, wavpack_write_trace, hs, if_false]
      simp [afw_destroy, hc, hd]
  · by_cases hs : (wavpack_write_int_go src sink ab R 0 0).2 = outcome.success
    · by_cases hf : flush_ok = true
      · simp [wavpack_write_trace, wavpack_write_path, hs, hf]
      · simp [wavpack_write_trace, wavpack_write_path, hs, hf, hnc]
    · simp [wavpack_write_trace, wavpack_write_path, hs, hnc]
  · intro h
    by_cases hs : (wavpack_write_int_go src sink ab R 0 0).2 = outcome.success
    · exact wavpack_write_int_go_sum src sink ab R 0 0 hs
    · rw [wavpack_write_path] at h
      simp only [hs, if_false] at h

/-- Witness for C2: with a cancellation predicate that aborts immediately
and 5 frames to transfer, the `ma_write` pipeline leaves the pre-existing
destination content `some 7` untouched; with zero frames remaining the
pipeline succeeds and the trace's read total is 0. -/
theorem C2_no_partial_output_witness :
    (ma_write_path ⟨some 7, none⟩ (fun _ n => n) (fun _ n => n) (fun _ => true) 5).1.dest
      = some 7
    ∧ sum_read (ma_write_go (fun _ n => n) (fun _ n => n) (fun _ => true) 0 0 0).1 = 0
    ∧ (wavpack_write_path ⟨some 7, none⟩ (fun _ n => n) (fun _ n => n) (fun _ => true) 5
        true).1.dest = some 7 := by
  have e1 : ma_write_go (fun _ n => n) (fun _ n => n) (fun _ => true) 5 0 0
      = ([ev.check 0 true], outcome.abort) := by
    have h5 : (5 : Nat) = 4 + 1 := rfl
    rw [h5, ma_write_go_abort (fun _ n => n) (fun _ n => n) (fun _ => true) 4 0 rfl]
  have e2 : wavpack_write_int_go (fun _ n => n) (fun _ n => n) (fun _ => true) 5 0 0
      = ([ev.check 0 true], outcome.abort) := by
    have h5 : (5 : Nat) = 4 + 1 := rfl
    rw [h5, wavpack_write_int_go_abort (fun _ n => n) (fun _ n => n) (fun _ => true) 4 0 rfl]
  refine ⟨?_, ?_, ?_⟩
  · have h := (C2_no_partial_output ⟨some 7, none⟩ (fun _ n => n) (fun _ n => n)
      (fun _ => true) 5 true).2.1
    exact h (by rw [show (ma_write_path ⟨some 7, none⟩ (fun _ n => n) (fun _ n => n)
      (fun _ => true) 5).2 = (ma_write_go (fun _ n => n) (fun _ n => n)
      (fun _ => true) 5 0 0).2 from rfl, e1]; simp)
  · have h := (C2_no_partial_output ⟨some 7, none⟩ (fun _ n => n) (fun _ n => n)
      (fun _ => true) 0 true).2.2.2.1
    exact h (by rw [show (ma_write_path ⟨some 7, none⟩ (fun _ n => n) (fun _ n => n)
      (fun _ => true) 0).2 = (ma_write_go (fun _ n => n) (fun _ n => n)
      (fun _ => true) 0 0 0).2 from rfl, ma_write_go_zero])
  · have h := (C2_no_partial_output ⟨some 7, none⟩ (fun _ n => n) (fun _ n => n)
      (fun _ => true) 5 true).2.2.2.2.2.1
    refine h ?_
    rw [wavpack_write_path]
    simp only [e2]
    simp

/-! ## Claim C6 -/

/-- Claim C6: in the chunked transfer loops — the `ma_write` pipeline, the
`wavpack_read_float_chunks` loop and the catching `ma_try_read` — whenever
the source yields fewer frames than the requested chunk (which is only ever
short of `min(remaining, CHUNK_SIZE)` with `remaining > 0`), or the sink
accepts fewer frames than were pushed, the outcome is the hard-failure
result (never success and never abort) and no commit is performed. -/
theorem C6_short_transfer_fails (src sink : Nat → Nat → Nat) (ab : Nat → Bool)
    (R p q g : Nat) :
    (ev.read p q g ∈ (ma_write_go src sink ab R 0 0).1 → g ≠ q →
      (ma_write_go src sink ab R 0 0).2 = outcome.error
      ∧ ev.commit ∉ (ma_write_go src sink ab R 0 0).1)
    ∧ (ev.write p q g ∈ (ma_write_go src sink ab R 0 0).1 → g ≠ q →
      (ma_write_go src sink ab R 0 0).2 = outcome.error
      ∧ ev.commit ∉ (ma_write_go src sink ab R 0 0).1)
    ∧ (ev.read p q g ∈ (wavpack_read_float_go src sink ab R 0).1 → g ≠ q →
      (wavpack_read_float_go src sink ab R 0).2 = outcome.error
      ∧ ev.commit ∉ (wavpack_read_float_go src sink ab R 0).1)
    ∧ (ev.write p q g ∈ (wavpack_read_float_go src sink ab R 0).1 → g ≠ q →
      (wavpack_read_float_go src sink ab R 0).2 = outcome.error
      ∧ ev.commit ∉ (wavpack_read_float_go src sink ab R 0).1)
    ∧ (ev.read p q g ∈ (ma_read_go src sink ab R 0).1 → g ≠ q →
      ma_try_read_result true src sink ab R = operation_result.fail)
    ∧ (ev.write p q g ∈ (ma_read_go src sink ab R 0).1 → g ≠ q →
      ma_try_read_result true src sink ab R = operation_result.fail) := by
  refine ⟨?_, ?_, ?_, ?_, ?_, ?_⟩
  · intro hmem hne
    have herr := ma_write_go_short_read_error src sink ab R 0 0 p q g hmem hne
    refine ⟨herr, ?_⟩
    intro hc
    have := (ma_write_go_commit_iff src sink ab R 0 0).mp hc
    rw [herr] at this
    exact absurd this (by simp)
  · intro hmem hne
    have herr := ma_write_go_short_write_error src sink ab R 0 0 p q g hmem hne
    refine ⟨herr, ?_⟩
    intro hc
    have := (ma_write_go_commit_iff src sink ab R 0 0).mp hc
    rw [herr] at this
    exact absurd this (by simp)
  · intro hmem hne
    exact ⟨wavpack_read_float_go_short_read_error src sink ab R 0 p q g hmem hne,
      wavpack_read_float_go_no_commit src sink ab R 0⟩
  · intro hmem hne
    exact ⟨wavpack_read_float_go_short_write_error src sink ab R 0 p q g hmem hne,
      wavpack_read_float_go_no_commit src sink ab R 0⟩
  · intro hmem hne
    have herr := ma_read_go_short_read_error src sink ab R 0 p q g hmem hne
    simp [ma_try_read_result, herr, to_operation_result]
  · intro hmem hne
    have herr := ma_read_go_short_write_error src sink ab R 0 p q g hmem hne
    simp [ma_try_read_result, herr, to_operation_result]

/-- Witness for C6: a source that returns 0 frames against a 5-frame
request makes the `ma_write` pipeline, the WavPack float read loop, and
the catching `ma_try_read` all fail hard without committing. -/
theorem C6_short_transfer_fails_witness :
    (ma_write_go (fun _ _ => 0) (fun _ n => n) (fun _ => false) 5 0 0).2 = outcome.error
    ∧ (wavpack_read_float_go (fun _ _ => 0) (fun _ n => n) (fun _ => false) 5 0).2
        = outcome.error
    ∧ ma_try_read_result true (fun _ _ => 0) (fun _ n => n) (fun _ => false) 5
        = operation_result.fail := by
  have h5 : (5 : Nat) = 4 + 1 := rfl
  have hne : (0 : Nat) ≠ min (4 + 1) CHUNK_SIZE := by decide
  have e1 : ma_write_go (fun _ _ => 0) (fun _ n => n) (fun _ => false) 5 0 0
      = ([ev.check 0 false, ev.read 0 (min (4 + 1) CHUNK_SIZE) 0], outcome.error) := by
    rw [h5, ma_write_go_short_read (fun _ _ => 0) (fun _ n => n) (fun _ => false) 4 rfl hne]
  have e2 : wavpack_read_float_go (fun _ _ => 0) (fun _ n => n) (fun _ => false) 5 0
      = ([ev.check 0 false, ev.read 0 (min (4 + 1) CHUNK_SIZE) 0], outcome.error) := by
    rw [h5, wavpack_read_float_go_short_read (fun _ _ => 0) (fun _ n => n)
      (fun _ => false) 4 rfl hne]
  have e3 : ma_read_go (fun _ _ => 0) (fun _ n => n) (fun _ => false) 5 0
      = ([ev.check 0 false, ev.read 0 (min (4 + 1) CHUNK_SIZE) 0], outcome.error) := by
    rw [h5, ma_read_go_short_read (fun _ _ => 0) (fun _ n => n) (fun _ => false) 4 rfl hne]
  refine ⟨?_, ?_, ?_⟩
  · exact ((C6_short_transfer_fails (fun _ _ => 0) (fun _ n => n) (fun _ => false) 5 0
      (min (4 + 1) CHUNK_SIZE) 0).1 (by rw [e1]; simp) (by decide)).1
  · exact ((C6_short_transfer_fails (fun _ _ => 0) (fun _ n => n) (fun _ => false) 5 0
      (min (4 + 1) CHUNK_SIZE) 0).2.2.1 (by rw [e2]; simp) (by decide)).1
  · exact (C6_short_transfer_fails (fun _ _ => 0) (fun _ n => n) (fun _ => false) 5 0
      (min (4 + 1) CHUNK_SIZE) 0).2.2.2.2.1 (by rw [e3]; simp) (by decide)

/-! ## Claim C7 -/

/-- Claim C7: in the chunked `ma_write` and `wavpack_write_int_chunks`
loops, the cancellation predicate is evaluated exactly once per chunk
iteration and never mid-chunk — the check events of a trace are precisely
the consecutive iteration indices 0, 1, … with the predicate's value at
each, and every trace is an alternation of one check followed by the
chunk's read and write (`wf_trace`); each chunk requests
`min(remaining, CHUNK_SIZE)` frames, where `remaining = R - transferred`;
and when the predicate returns true the loop returns abort immediately —
the observed true check is the final event of the trace, so no further
frames are pulled from the source. -/
theorem C7_cancellation_once_per_chunk (src sink : Nat → Nat → Nat) (ab : Nat → Bool)
    (R : Nat) :
    (∀ p q g, ev.read p q g ∈ (ma_write_go src sink ab R 0 0).1 →
        q = min (R - p) CHUNK_SIZE)
    ∧ (∃ k, (ma_write_go src sink ab R 0 0).1.filter is_check =
        (List.range' 0 k).map (fun j => ev.check j (ab j)))
    ∧ wf_trace (ma_write_go src sink ab R 0 0).1 = true
    ∧ (∀ j, ev.check j true ∈ (ma_write_go src sink ab R 0 0).1 →
        (∃ t, (ma_write_go src sink ab R 0 0).1 = t ++ [ev.check j true])
        ∧ (ma_write_go src sink ab R 0 0).2 = outcome.abort)
    ∧ (∀ p q g, ev.read p q g ∈ (wavpack_write_int_go src sink ab R 0 0).1 →
        q = min (R - p) CHUNK_SIZE)
    ∧ (∃ k, (wavpack_write_int_go src sink ab R 0 0).1.filter is_check =
        (List.range' 0 k).map (fun j => ev.check j (ab j)))
    ∧ wf_trace (wavpack_write_int_go src sink ab R 0 0).1 = true
    ∧ (∀ j, ev.check j true ∈ (wavpack_write_int_go src sink ab R 0 0).1 →
        (∃ t, (wavpack_write_int_go src sink ab R 0 0).1 = t ++ [ev.check j true])
        ∧ (wavpack_write_int_go src sink ab R 0 0).2 = outcome.abort)
    ∧ CHUNK_SIZE = 16384 := by
  refine ⟨?_, ?_, ?_, ?_, ?_, ?_, ?_, ?_, by decide⟩
  · intro p q g hmem
    obtain ⟨d, hd, hp, hq⟩ := ma_write_go_read_req src sink ab R 0 0 p q g hmem
    have hdp : d = p := by omega
    rw [hq, hdp]
  · exact ma_write_go_checks src sink ab R 0 0
  · exact ma_write_go_wf src sink ab R 0 0
  · intro j hmem
    exact ma_write_go_abort_tail src sink ab R 0 0 j hmem
  · intro p q g hmem
    obtain ⟨d, hd, hp, hq⟩ := wavpack_write_int_go_read_req src sink ab R 0 0 p q g hmem
    have hdp : d = p := by omega
    rw [hq, hdp]
  · exact wavpack_write_int_go_checks src sink ab R 0 0
  · exact wavpack_write_int_go_wf src sink ab R 0 0
  · intro j hmem
    exact wavpack_write_int_go_abort_tail src sink ab R 0 0 j hmem

/-- Witness for C7: on a 5-frame transfer with an immediately-true
predicate, the observed `check 0 true` is the whole trace and the outcome
is abort, in both loops; on a 5-frame transfer with a never-true
predicate the single chunk requests `min(5, CHUNK_SIZE)` frames. -/
theorem C7_cancellation_once_per_chunk_witness :
    ((∃ t, (ma_write_go (fun _ n => n) (fun _ n => n) (fun _ => true) 5 0 0).1
        = t ++ [ev.check 0 true])
      ∧ (ma_write_go (fun _ n => n) (fun _ n => n) (fun _ => true) 5 0 0).2
        = outcome.abort)
    ∧ ((wavpack_write_int_go (fun _ n => n) (fun _ n => n) (fun _ => true) 5 0 0).2
        = outcome.abort)
    ∧ (min (4 + 1) CHUNK_SIZE = min ((5 : Nat) - 0) CHUNK_SIZE) := by
  have h5 : (5 : Nat) = 4 + 1 := rfl
  have e1 : ma_write_go (fun _ n => n) (fun _ n => n) (fun _ => true) 5 0 0
      = ([ev.check 0 true], outcome.abort) := by
    rw [h5, ma_write_go_abort (fun _ n => n) (fun _ n => n) (fun _ => true) 4 0 rfl]
  have e2 : wavpack_write_int_go (fun _ n => n) (fun _ n => n) (fun _ => true) 5 0 0
      = ([ev.check 0 true], outcome.abort) := by
    rw [h5, wavpack_write_int_go_abort (fun _ n => n) (fun _ n => n) (fun _ => true) 4 0 rfl]
  have e3 : ma_write_go (fun _ n => n) (fun _ n => n) (fun _ => false) 5 0 0
      = (ev.check 0 false
          :: ev.read 0 (min (4 + 1) CHUNK_SIZE) (min (4 + 1) CHUNK_SIZE)
          :: ev.write 0 (min (4 + 1) CHUNK_SIZE) (min (4 + 1) CHUNK_SIZE)
          :: (ma_write_go (fun _ n => n) (fun _ n => n) (fun _ => false)
                (4 + 1 - min (4 + 1) CHUNK_SIZE) (0 + min (4 + 1) CHUNK_SIZE) 1).1,
         (ma_write_go (fun _ n => n) (fun _ n => n) (fun _ => false)
            (4 + 1 - min (4 + 1) CHUNK_SIZE) (0 + min (4 + 1) CHUNK_SIZE) 1).2) := by
    rw [h5]
    exact ma_write_go_full (fun _ n => n) (fun _ n => n) (fun _ => false) 4 rfl rfl rfl
  refine ⟨?_, ?_, ?_⟩
  · exact (C7_cancellation_once_per_chunk (fun _ n => n) (fun _ n => n)
      (fun _ => true) 5).2.2.2.1 0 (by rw [e1]; simp)
  · exact ((C7_cancellation_once_per_chunk (fun _ n => n) (fun _ n => n)
      (fun _ => true) 5).2.2.2.2.2.2.2.1 0 (by rw [e2]; simp)).2
  · exact (C7_cancellation_once_per_chunk (fun _ n => n) (fun _ n => n)
      (fun _ => false) 5).1 0 (min (4 + 1) CHUNK_SIZE) (min (4 + 1) CHUNK_SIZE)
      (by rw [e3]; simp)

/-! ## Claim C8 -/

/-- Claim C8: calling `commit()` twice on an atomic file writer has the
same externally observable effect as calling it once — after a first call
(from any starting state), a second call performs no flush, no close and
no rename, and leaves the writer state and the file system (including the
committed destination file) unchanged. -/
theorem C8_commit_idempotent (w : writer_state) :
    afw_commit (afw_commit w).1 = ((afw_commit w).1, []) := by
  unfold afw_commit
  by_cases h : w.committed <;> simp [h]

/-- Witness for C8: the second commit on a freshly created writer over a
file system with destination content 3 and a 5-byte temp file is a no-op
with no actions. -/
theorem C8_commit_idempotent_witness :
    afw_commit (afw_commit ⟨⟨some 3, some 5⟩, false⟩).1
      = ((afw_commit ⟨⟨some 3, some 5⟩, false⟩).1, []) :=
  C8_commit_idempotent ⟨⟨some 3, some 5⟩, false⟩

/-! ## Claim C9 -/

/-- Claim C9: the claim says `byte_input_stream::read_bytes` copies the
bytes of the span starting at the current position, so consecutive reads
yield consecutive ranges.  The code computes the count and advances the
position correctly but always copies from `bytes_.data()` — the start of
the span.  At the failing input — the span `[10, 20, 30]`, a 2-byte read
followed by a 1-byte read — the second read returns `[10]` (the span's
first byte) where the claim requires `[30]` (the byte at position 2); the
count, the position advance, and the 0-byte result at end-of-data behave
as claimed. -/
theorem C9_read_bytes_copies_from_span_start :
    byte_input_stream.read_bytes ⟨[10, 20, 30], 0⟩ 2
      = ([10, 20], ⟨[10, 20, 30], 2⟩)
    ∧ byte_input_stream.read_bytes ⟨[10, 20, 30], 2⟩ 1
      = ([10], ⟨[10, 20, 30], 3⟩)
    ∧ ([10] : List Nat) ≠ [30]
    ∧ byte_input_stream.read_bytes ⟨[10, 20, 30], 3⟩ 4
      = ([], ⟨[10, 20, 30], 3⟩) := by
  decide

/-! ## Claim C10 -/

/-- Claim C10: the claim says `push_back_byte` always returns true, only
decrements the position, never stores the pushed value — all of which the
code does — and that therefore the next byte read is the span's original
byte at the decremented position.  That consequence fails: because
`read_bytes` copies from the span's start, reading one byte after pushing
back at position 2 yields `[10]`, the span's first byte, not `[20]`, the
byte at the decremented position 1; the pushed value 99 is indeed ignored
and the span unmodified. -/
theorem C10_push_back_then_read_yields_first_byte :
    byte_input_stream.push_back_byte ⟨[10, 20, 30], 2⟩ 99
      = (true, ⟨[10, 20, 30], 1⟩)
    ∧ (byte_input_stream.read_bytes ⟨[10, 20, 30], 1⟩ 1).1 = [10]
    ∧ ([10] : List Nat) ≠ [20] := by
  decide

end audiorw
